import Mathlib

/-!
Verification development for the polyglot streaming export engine.

The definitions below are a shallow embedding of the repository's
JavaScript source: the db batch generator (`streamRows`), the four
writers (`writeCsv`, `writeJson`, `writeXml`, `writeParquet`), the
in-memory job store (`jobs.js`) and the download route handler
(`routes/exports.js`).  JavaScript values carried by rows (including the
nested JSONB `metadata` column) are modelled by the recursive type
`JsVal`; JS objects are modelled as association lists with
insert-or-update assignment, and strings as Lean `String`s.
-/

set_option autoImplicit false

namespace PolyStream

/-- Model of a JavaScript value as produced by the pg driver: null,
booleans, (integer) numbers, strings, arrays and plain objects. -/
inductive JsVal where
  | null : JsVal
  | bool (b : Bool) : JsVal
  | num (n : Int) : JsVal
  | str (s : String) : JsVal
  | arr (l : List JsVal) : JsVal
  | obj (m : List (String × JsVal)) : JsVal

/-- A database row: a JS object mapping source column names to values. -/
abbrev Row := List (String × JsVal)

/-- One entry of the requested column mapping (`{source, target}`). -/
structure Column where
  source : String
  target : String
deriving DecidableEq, Repr

/-- Property read `row[s]` on a row object (rows from the db always carry
every selected column, so the absent case is mapped to null). -/
def rowGet (r : Row) (s : String) : JsVal :=
  (r.lookup s).getD JsVal.null

/-- JS object property assignment `o[k] = v`: updates the entry in place
when the key exists, otherwise appends a new entry. -/
def jsObjSet {α : Type} (o : List (String × α)) (k : String) (v : α) :
    List (String × α) :=
  if o.any (fun p => p.1 == k) then
    o.map (fun p => if p.1 == k then (k, v) else p)
  else o ++ [(k, v)]

/-- The target-keyed object built by the json writer's inner loop:
`out[col.target] = row[col.source]` over the columns in order. -/
def rekeyRow (cols : List Column) (r : Row) : List (String × JsVal) :=
  cols.foldl (fun o c => jsObjSet o c.target (rowGet r c.source)) []

/-- Lowercase hexadecimal digit for a value below 16. -/
def hexDig (d : Nat) : Char :=
  if d < 10 then Char.ofNat (48 + d) else Char.ofNat (97 + d - 10)

/-- Escape of one character inside a JSON string literal, exactly the
set escaped by JavaScript's JSON.stringify. -/
def escChar (c : Char) : List Char :=
  if c = '"' then ['\\', '"']
  else if c = '\\' then ['\\', '\\']
  else if c = '\n' then ['\\', 'n']
  else if c = '\t' then ['\\', 't']
  else if c = '\r' then ['\\', 'r']
  else if c = '\x08' then ['\\', 'b']
  else if c = '\x0c' then ['\\', 'f']
  else if c.toNat < 32 then
    ['\\', 'u', '0', '0', hexDig (c.toNat / 16), hexDig (c.toNat % 16)]
  else [c]

/-- Escaped body of a JSON string literal. -/
def escBody : List Char → List Char
  | [] => []
  | c :: cs => escChar c ++ escBody cs

mutual

/-- Characters of `JSON.stringify` applied to a `JsVal`. -/
def serVal : JsVal → List Char
  | JsVal.null => ['n', 'u', 'l', 'l']
  | JsVal.bool true => ['t', 'r', 'u', 'e']
  | JsVal.bool false => ['f', 'a', 'l', 's', 'e']
  | JsVal.num n => (toString n).data
  | JsVal.str s => '"' :: escBody s.data ++ ['"']
  | JsVal.arr l => '[' :: serElems l ++ [']']
  | JsVal.obj m => '\x7b' :: serMembs m ++ ['\x7d']

/-- Comma-separated serialized array elements. -/
def serElems : List JsVal → List Char
  | [] => []
  | [v] => serVal v
  | v :: w :: r => serVal v ++ ',' :: serElems (w :: r)

/-- Comma-separated serialized object members. -/
def serMembs : List (String × JsVal) → List Char
  | [] => []
  | [(k, v)] => '"' :: escBody k.data ++ '"' :: ':' :: serVal v
  | (k, v) :: m :: r =>
      ('"' :: escBody k.data ++ '"' :: ':' :: serVal v) ++ ',' :: serMembs (m :: r)

end

/-- String form of `JSON.stringify`. -/
def stringifyJs (v : JsVal) : String := String.mk (serVal v)

/-- Concatenation of a list of strings in order. -/
def strConcat : List String → String
  | [] => ""
  | s :: r => s ++ strConcat r

/-- Chunk written by the json writer for one row: leading newline for
the first row, comma plus newline for every later row, then the
serialized target-keyed object. -/
def jsonRowChunk (cols : List Column) (f : Bool) (r : Row) : String :=
  if f then "\n" ++ stringifyJs (JsVal.obj (rekeyRow cols r))
  else ",\n" ++ stringifyJs (JsVal.obj (rekeyRow cols r))

/-- Chunks written for a list of rows, threading the isFirst flag. -/
def jsonRowsChunks (cols : List Column) : Bool → List Row → List String
  | _, [] => []
  | f, r :: rs => jsonRowChunk cols f r :: jsonRowsChunks cols false rs

/-- Chunks written for the batch sequence, threading the isFirst flag
across batch boundaries exactly as the writer's nested loops do. -/
def jsonBatchesChunks (cols : List Column) : Bool → List (List Row) → List String
  | _, [] => []
  | f, b :: bs =>
      jsonRowsChunks cols f b ++ jsonBatchesChunks cols (f && b.isEmpty) bs

/-- The full ordered list of write calls the json writer issues on its
success path: opening bracket, one chunk per row, closing newline and
bracket. -/
def jsonChunksOf (cols : List Column) (bs : List (List Row)) : List String :=
  "[" :: jsonBatchesChunks cols true bs ++ ["\n]"]

/-- The complete byte output of `writeJson` on its success path. -/
def jsonOut (cols : List Column) (bs : List (List Row)) : String :=
  "[" ++ strConcat (jsonBatchesChunks cols true bs) ++ "\n]"

/-- The apostrophe character. -/
def apos : Char := Char.ofNat 39

/-- Characters allowed in an XML element name by the writer's first
regex pass, the class written `[a-zA-Z0-9_\-\.]` in the source. -/
def tagOk (c : Char) : Bool :=
  c.isAlphanum || c == '_' || c == '-' || c == '.'

/-- Element-name sanitization of `valueToXml`: first regex pass replaces
every character outside the allowed class with an underscore, second
pass prepends an underscore when the first character is a digit. -/
def sanitizeTag (s : String) : String :=
  let t := String.mk (s.data.map (fun c => if tagOk c then c else '_'))
  match t.data with
  | [] => t
  | c :: _ => if c.isDigit then "_" ++ t else t

/-- Global single-character replacement, the meaning of one
`String.replace(/c/g, r)` pass. -/
def replChar (a : Char) (r : List Char) : List Char → List Char
  | [] => []
  | c :: cs => (if c = a then r else [c]) ++ replChar a r cs

/-- Entity for the ampersand. -/
def ampEnt : List Char := ['&', 'a', 'm', 'p', ';']

/-- Entity for the less-than sign. -/
def ltEnt : List Char := ['&', 'l', 't', ';']

/-- Entity for the greater-than sign. -/
def gtEnt : List Char := ['&', 'g', 't', ';']

/-- Entity for the double quote. -/
def quotEnt : List Char := ['&', 'q', 'u', 'o', 't', ';']

/-- Entity for the apostrophe. -/
def aposEnt : List Char := ['&', 'a', 'p', 'o', 's', ';']

/-- The xml writer's five successive escape passes on the character
list, in source order: ampersand, less-than, greater-than, double
quote, apostrophe. -/
def xmlEscapeL (cs : List Char) : List Char :=
  replChar apos aposEnt
    (replChar '"' quotEnt
      (replChar '>' gtEnt
        (replChar '<' ltEnt
          (replChar '&' ampEnt cs))))

/-- Escape of text content in the xml writer. -/
def xmlEscape (s : String) : String := String.mk (xmlEscapeL s.data)

/-- Character-wise description of the same escape: each of the five XML
metacharacters maps to its entity, every other character to itself. -/
def xmlEscChar (c : Char) : List Char :=
  if c = '&' then ampEnt
  else if c = '<' then ltEnt
  else if c = '>' then gtEnt
  else if c = '"' then quotEnt
  else if c = apos then aposEnt
  else [c]

/-- JavaScript `String(value)` for the scalar values reaching the xml
writer's text branch (booleans, numbers, strings). -/
def scalarStr : JsVal → String
  | JsVal.bool true => "true"
  | JsVal.bool false => "false"
  | JsVal.num n => toString n
  | JsVal.str s => s
  | _ => ""

mutual

/-- The xml writer's recursive `valueToXml`: null becomes a self-closing
element, an array becomes sibling generic item elements, an object
becomes nested named elements, a scalar becomes escaped text content. -/
def valueToXml : String → JsVal → String
  | t, JsVal.null =>
      "<" ++ sanitizeTag t ++ "/>"
  | t, JsVal.arr l =>
      "<" ++ sanitizeTag t ++ ">" ++ xmlItems l ++ "</" ++ sanitizeTag t ++ ">"
  | t, JsVal.obj m =>
      "<" ++ sanitizeTag t ++ ">" ++ xmlEntries m ++ "</" ++ sanitizeTag t ++ ">"
  | t, v =>
      "<" ++ sanitizeTag t ++ ">" ++ xmlEscape (scalarStr v) ++
        "</" ++ sanitizeTag t ++ ">"

/-- Concatenated rendering of array members under the generic item tag. -/
def xmlItems : List JsVal → String
  | [] => ""
  | v :: r => valueToXml "item" v ++ xmlItems r

/-- Concatenated rendering of object entries under their own keys. -/
def xmlEntries : List (String × JsVal) → String
  | [] => ""
  | (k, v) :: r => valueToXml k v ++ xmlEntries r

end

/-- The xml writer's text for one record element. -/
def xmlRowStr (cols : List Column) (r : Row) : String :=
  "  <record>\n" ++
    strConcat (cols.map
      (fun c => "    " ++ valueToXml c.target (rowGet r c.source) ++ "\n")) ++
    "  </record>\n"

/-- Per-batch chunk accumulated by the xml writer before one write. -/
def xmlBatchChunk (cols : List Column) (b : List Row) : String :=
  strConcat (b.map (xmlRowStr cols))

/-- Declaration plus opening root element written first. -/
def xmlHeader : String :=
  "<?xml version=\"1.0\" encoding=\"UTF-8\"?>\n<records>\n"

/-- The full ordered list of write calls the xml writer issues on its
success path. -/
def xmlChunksOf (cols : List Column) (bs : List (List Row)) : List String :=
  xmlHeader :: bs.map (xmlBatchChunk cols) ++ ["</records>"]

/-- The complete byte output of `writeXml` on its success path. -/
def xmlOut (cols : List Column) (bs : List (List Row)) : String :=
  strConcat (xmlChunksOf cols bs)

/-- The source-keyed record object the csv writer hands to the external
csv-stringify stream for one row. -/
def csvRecord (cols : List Column) (r : Row) : List (String × JsVal) :=
  cols.foldl (fun o c => jsObjSet o c.source (rowGet r c.source)) []

/-- The ordered sequence of record objects the csv writer feeds to the
stringifier over the whole batch sequence (the stringifier then encodes
them one record at a time). -/
def csvRecordSeq (cols : List Column) : List (List Row) → List (List (String × JsVal))
  | [] => []
  | b :: bs => b.map (csvRecord cols) ++ csvRecordSeq cols bs

/-- Event on the sink: a write call returning its readiness result, or
the drain event the writer awaits after a pending write. -/
inductive WEv where
  | wr (s : String) (ok : Bool) : WEv
  | drain : WEv
deriving DecidableEq

/-- Execution of the writers' write helper over a chunk list, against a
readiness schedule giving each write call's result: after a write that
returns false the writer suspends until the drain event, exactly the
`if (!ok) await drain` of the source; a schedule that runs out means an
always-ready sink. -/
def runWrites : List String → List Bool → List WEv
  | [], _ => []
  | c :: cs, [] => WEv.wr c true :: runWrites cs []
  | c :: cs, r :: rs =>
      if r then WEv.wr c true :: runWrites cs rs
      else WEv.wr c false :: WEv.drain :: runWrites cs rs

/-- Checks that a trace never has a second write while one write is
still unacknowledged: every pending write is immediately followed by
the drain event before any further write. -/
def disciplined : List WEv → Bool
  | [] => true
  | WEv.wr _ true :: es => disciplined es
  | WEv.wr _ false :: WEv.drain :: es => disciplined es
  | _ => false

/-- Bytes delivered to the sink by a trace, in order. -/
def writtenBytes : List WEv → String
  | [] => ""
  | WEv.wr s _ :: es => s ++ writtenBytes es
  | WEv.drain :: es => writtenBytes es

/-- One invocation of the db batch generator `streamRows`, described by
its environment: the successive non-terminal cursor reads, whether the
terminal read is a clean empty fetch (true) or a fetch error (false),
and whether the consumer abandons early — `some n` means the consumer
breaks out of its loop after taking `n + 1` batches (a for-await
consumer always pulls at least once), `none` means it consumes to the
end. -/
structure SRInput where
  batches : List (List Row)
  cleanEnd : Bool
  consume : Option Nat

/-- Observable outcome of one `streamRows` invocation: how many times
the pooled connection was released, whether `cursor.close()` ran,
whether an error was propagated to the consumer, and the batches the
consumer received. -/
structure SROut where
  releases : Nat
  cursorClosed : Bool
  errored : Bool
  yielded : List (List Row)

/-- Body of `streamRows`: the while loop reads batches inside the try
block; an empty fetch breaks the loop and reaches `cursor.close()`; a
fetch error or an early `return()` from the consumer leaves the try
block at once, skipping `cursor.close()`; the `finally` releases the
client on every path.  The budget counts the yields the consumer still
accepts before breaking. -/
def srLoop : List (List Row) → Bool → Option Nat → SROut
  | _, _, some 0 =>
      { releases := 1, cursorClosed := false, errored := false, yielded := [] }
  | [], clean, _ =>
      if clean then
        { releases := 1, cursorClosed := true, errored := false, yielded := [] }
      else
        { releases := 1, cursorClosed := false, errored := true, yielded := [] }
  | b :: bs, clean, k =>
      if b.isEmpty then
        { releases := 1, cursorClosed := true, errored := false, yielded := [] }
      else
        let r := srLoop bs clean (k.map (fun n => n - 1))
        { r with yielded := b :: r.yielded }

/-- Outcome of one full `streamRows` invocation. -/
def runStreamRows (i : SRInput) : SROut :=
  srLoop i.batches i.cleanEnd (i.consume.map (fun n => n + 1))

/-- Point at which an injected failure hits the parquet writer's try
block, or `ok` for the failure-free run: creating the temp directory,
opening the staging file, appending row `k`, finalizing the writer, or
streaming the finished artifact to the response. -/
inductive PqErr where
  | ok : PqErr
  | mkdirE : PqErr
  | openE : PqErr
  | appendE (k : Nat) : PqErr
  | closeE : PqErr
  | streamE : PqErr
deriving DecidableEq

/-- State of the parquet writer's try block at the moment it exits:
whether the staging file exists at that point, how many rows were
appended, whether any artifact byte reached the response, and whether
an error was thrown. -/
structure PqTry where
  tmpAtExit : Bool
  rowsWritten : Nat
  bytesSent : Bool
  errorOccurred : Bool

/-- The parquet writer's try block over `n` source rows with an
injected failure: mkdir and open failures happen before the staging
file exists; append, close and stream failures happen after it was
created; only the complete run streams the artifact (an append
injection at an index past the row count never fires). -/
def writeParquetTry : PqErr → Nat → PqTry
  | PqErr.mkdirE, _ =>
      { tmpAtExit := false, rowsWritten := 0, bytesSent := false, errorOccurred := true }
  | PqErr.openE, _ =>
      { tmpAtExit := false, rowsWritten := 0, bytesSent := false, errorOccurred := true }
  | PqErr.appendE k, n =>
      if k < n then
        { tmpAtExit := true, rowsWritten := k, bytesSent := false, errorOccurred := true }
      else
        { tmpAtExit := true, rowsWritten := n, bytesSent := true, errorOccurred := false }
  | PqErr.closeE, n =>
      { tmpAtExit := true, rowsWritten := n, bytesSent := false, errorOccurred := true }
  | PqErr.streamE, n =>
      { tmpAtExit := true, rowsWritten := n, bytesSent := true, errorOccurred := true }
  | PqErr.ok, n =>
      { tmpAtExit := true, rowsWritten := n, bytesSent := true, errorOccurred := false }

/-- Observable outcome of one `writeParquet` call after its catch and
finally blocks ran: the catch swallows any error (it only logs and ends
the response), the finally unlinks the staging file. -/
structure PqOutcome where
  tmpExists : Bool
  rowsWritten : Nat
  bytesSent : Bool
  errorOccurred : Bool
  raised : Bool

/-- Whole `writeParquet` call: run the try block, then the catch arm
(which never rethrows, so the call never raises to its caller), then
the finally arm (`fs.unlink` of the staging path, so the file is gone
on every path). -/
def writeParquetRun (e : PqErr) (rows : List Row) : PqOutcome :=
  let t := writeParquetTry e rows.length
  { tmpExists := false
    rowsWritten := t.rowsWritten
    bytesSent := t.bytesSent
    errorOccurred := t.errorOccurred
    raised := false }

/-- Parquet physical types assigned by the schema builder. -/
inductive PqType where
  | int64 : PqType
  | double : PqType
  | timestampMillis : PqType
  | utf8 : PqType
deriving DecidableEq

/-- The source's `getParquetFieldType` switch on the source column
name. -/
def getParquetFieldType (s : String) : PqType :=
  if s = "id" then PqType.int64
  else if s = "value" then PqType.double
  else if s = "created_at" then PqType.timestampMillis
  else if s = "metadata" then PqType.utf8
  else PqType.utf8

/-- The source's `buildSchema`: a JS object assigning each column's
target name the physical type of its source field, in column order. -/
def buildSchema (cols : List Column) : List (String × PqType) :=
  cols.foldl (fun o c => jsObjSet o c.target (getParquetFieldType c.source)) []

/-- One export job from the in-process job store. -/
structure Job where
  format : String
  columns : List Column
  compression : Option String
  status : String
deriving DecidableEq

/-- The in-process job store, a map from export id to job. -/
abbrev Store := List (String × Job)

/-- The source's `getJob`: `store.get(exportId)`. -/
def getJob (st : Store) (i : String) : Option Job :=
  st.lookup i

/-- The source's `updateJobStatus`: looks the job up and, only when it
exists, mutates its status field in place. -/
def updateJobStatus (st : Store) (i : String) (s : String) : Store :=
  st.map (fun p => if p.1 = i then (p.1, { p.2 with status := s }) else p)

/-- What the download route observes of a writer call: whether the call
raised to the route's catch, whether response headers had been sent
(a byte reached the real sink), and whether an error occurred anywhere
inside the writer. -/
structure WriterObs where
  raised : Bool
  headersSent : Bool
  errorOccurred : Bool

/-- Outcome of the json writer over the batch sequence when the
terminal cursor read fails: every row chunk was already written after
the opening bracket; the catch block logs, destroys the sink and ends
the response without rethrowing, so the call never raises. -/
def writeJsonRun (cols : List Column) (bs : List (List Row)) (fetchFails : Bool) :
    WriterObs × String :=
  ({ raised := false, headersSent := true, errorOccurred := fetchFails },
   if fetchFails then "[" ++ strConcat (jsonBatchesChunks cols true bs)
   else jsonOut cols bs)

/-- The writer observation for a parquet call: the catch swallows the
error, and headers go out only when artifact bytes reach the
response. -/
def pqObs (o : PqOutcome) : WriterObs :=
  { raised := o.raised, headersSent := o.bytesSent, errorOccurred := o.errorOccurred }

/-- Tail of the download route handler after the writer call returns or
raises: on a raise the catch updates the job to error and sends the
structured payload only if headers were not yet sent; otherwise the
route marks the job complete and sends nothing further. -/
def downloadFinish (st : Store) (i : String) (w : WriterObs) :
    Store × Option String :=
  if w.raised then
    (updateJobStatus st i "error",
     if w.headersSent then none else some "Export failed.")
  else
    (updateJobStatus st i "complete", none)

/-- Column mapping used by the concrete counterexample runs. -/
def colsX : List Column := [{ source := "id", target := "id" }]

/-- A concrete row carrying one integer id. -/
def rowX : Row := [("id", JsVal.num 1)]

/-- A second concrete row carrying another integer id. -/
def rowY : Row := [("id", JsVal.num 2)]

/-- The statement of claim C3 as written: every invocation of
`streamRows`, on every termination path, releases the pooled connection
exactly once and closes the server-side cursor. -/
def claimC3 : Prop :=
  ∀ i : SRInput,
    (runStreamRows i).releases = 1 ∧ (runStreamRows i).cursorClosed = true

/-- The invocation on which claim C3 fails: the very first cursor read
errors, the consumer never abandons. -/
def srErrInput : SRInput := { batches := [], cleanEnd := false, consume := none }

/-- A clean fully-consumed invocation with one singleton batch. -/
def srCleanInput : SRInput := { batches := [[rowX]], cleanEnd := true, consume := none }

/-- An invocation whose consumer abandons early: two nonempty batches
are available but the consumer breaks out of its loop after taking the
first one. -/
def srAbandonInput : SRInput :=
  { batches := [[rowX], [rowY]], cleanEnd := true, consume := some 0 }

/-- The full column mapping of the benchmark route, mapping every
allowed source field to itself. -/
def colsAll : List Column :=
  [{ source := "id", target := "id" },
   { source := "created_at", target := "created_at" },
   { source := "name", target := "name" },
   { source := "value", target := "value" },
   { source := "metadata", target := "metadata" }]

/-- A pending json job as stored by `createJob`. -/
def jobJsonX : Job :=
  { format := "json", columns := colsX, compression := none, status := "pending" }

/-- A pending parquet job as stored by `createJob`. -/
def jobPqX : Job :=
  { format := "parquet", columns := colsX, compression := none, status := "pending" }

/-- A store holding the pending json job under id j1. -/
def storeJsonX : Store := [("j1", jobJsonX)]

/-- A store holding the pending parquet job under id p1. -/
def storePqX : Store := [("p1", jobPqX)]

/-- JSON insignificant whitespace characters. -/
def isWsChar (c : Char) : Bool :=
  c == ' ' || c == '\n' || c == '\t' || c == '\r'

/-- A character list made only of JSON whitespace. -/
def Ws (cs : List Char) : Prop := ∀ c ∈ cs, isWsChar c = true

/-- Hexadecimal digit of the JSON `u` escape. -/
def isHexDig (c : Char) : Bool :=
  c.isDigit || ('a' ≤ c && c ≤ 'f') || ('A' ≤ c && c ≤ 'F')

/-- Numeric value of a hexadecimal digit. -/
def hexVal (c : Char) : Nat :=
  if c.isDigit then c.toNat - 48
  else if 'a' ≤ c && c ≤ 'f' then c.toNat - 97 + 10
  else if 'A' ≤ c && c ≤ 'F' then c.toNat - 65 + 10
  else 0

/-- Character denoted by a four-digit JSON `u` escape. -/
def decodeU (p q u v : Char) : Char :=
  Char.ofNat (hexVal p * 4096 + hexVal q * 256 + hexVal u * 16 + hexVal v)

/-- JSON string-literal body per RFC 8259: relates the raw characters
between the quotes to the denoted character sequence; unescaped
characters must not be a quote, a backslash or a control character, and
the escape sequences denote their usual characters. -/
inductive StrBody : List Char → List Char → Prop where
  | nil : StrBody [] []
  | chr (c : Char) (b s : List Char) :
      c ≠ '"' → c ≠ '\\' → 32 ≤ c.toNat → StrBody b s → StrBody (c :: b) (c :: s)
  | eq (b s : List Char) : StrBody b s → StrBody ('\\' :: '"' :: b) ('"' :: s)
  | ebs (b s : List Char) : StrBody b s → StrBody ('\\' :: '\\' :: b) ('\\' :: s)
  | esl (b s : List Char) : StrBody b s → StrBody ('\\' :: '/' :: b) ('/' :: s)
  | en (b s : List Char) : StrBody b s → StrBody ('\\' :: 'n' :: b) ('\n' :: s)
  | et (b s : List Char) : StrBody b s → StrBody ('\\' :: 't' :: b) ('\t' :: s)
  | er (b s : List Char) : StrBody b s → StrBody ('\\' :: 'r' :: b) ('\r' :: s)
  | eb (b s : List Char) : StrBody b s → StrBody ('\\' :: 'b' :: b) ('\x08' :: s)
  | ef (b s : List Char) : StrBody b s → StrBody ('\\' :: 'f' :: b) ('\x0c' :: s)
  | eu (p q u v : Char) (b s : List Char) :
      isHexDig p = true → isHexDig q = true → isHexDig u = true →
      isHexDig v = true → StrBody b s →
      StrBody ('\\' :: 'u' :: p :: q :: u :: v :: b) (decodeU p q u v :: s)

mutual

/-- JSON value grammar per RFC 8259, as a relation between a character
list and the value it denotes: the literals, canonical decimal integer
numerals, string literals, and bracketed arrays and objects whose inner
text is related by the element and member grammars below (whitespace is
allowed around elements, members, keys and colons). -/
inductive JVal : List Char → JsVal → Prop where
  | vnull : JVal ['n', 'u', 'l', 'l'] JsVal.null
  | vtrue : JVal ['t', 'r', 'u', 'e'] (JsVal.bool true)
  | vfalse : JVal ['f', 'a', 'l', 's', 'e'] (JsVal.bool false)
  | vnum (n : Int) : JVal (toString n).data (JsVal.num n)
  | vstr (b s : List Char) :
      StrBody b s → JVal ('"' :: b ++ ['"']) (JsVal.str (String.mk s))
  | varrNil (w : List Char) : Ws w → JVal ('[' :: w ++ [']']) (JsVal.arr [])
  | varr (c : List Char) (l : List JsVal) :
      JElems c l → JVal ('[' :: c ++ [']']) (JsVal.arr l)
  | vobjNil (w : List Char) : Ws w → JVal ('\x7b' :: w ++ ['\x7d']) (JsVal.obj [])
  | vobj (c : List Char) (m : List (String × JsVal)) :
      JMembs c m → JVal ('\x7b' :: c ++ ['\x7d']) (JsVal.obj m)

/-- Non-empty comma-separated array element text, each element framed
by optional whitespace. -/
inductive JElems : List Char → List JsVal → Prop where
  | onee (a b c : List Char) (v : JsVal) :
      Ws a → Ws b → JVal c v → JElems (a ++ c ++ b) [v]
  | conse (a b c r : List Char) (v : JsVal) (l : List JsVal) :
      Ws a → Ws b → JVal c v → JElems r l →
      JElems (a ++ c ++ b ++ ',' :: r) (v :: l)

/-- Non-empty comma-separated object member text: each member is a
string-literal key, a colon and a value, framed by optional
whitespace. -/
inductive JMembs : List Char → List (String × JsVal) → Prop where
  | onem (w x y z b s c : List Char) (v : JsVal) :
      Ws w → Ws x → Ws y → Ws z → StrBody b s → JVal c v →
      JMembs (w ++ ('"' :: b ++ ['"']) ++ x ++ ':' :: y ++ c ++ z)
        [(String.mk s, v)]
  | consm (w x y z b s c r : List Char) (v : JsVal) (m : List (String × JsVal)) :
      Ws w → Ws x → Ws y → Ws z → StrBody b s → JVal c v → JMembs r m →
      JMembs (w ++ ('"' :: b ++ ['"']) ++ x ++ ':' :: y ++ c ++ z ++ ',' :: r)
        ((String.mk s, v) :: m)

end

/-- Separator-prefixed serialization of the json writer's records after
the first one: a comma, a newline and the record. -/
def sepTail : List JsVal → List Char
  | [] => []
  | v :: l => ',' :: '\n' :: serVal v ++ sepTail l

theorem strConcat_append (xs ys : List String) :
    strConcat (xs ++ ys) = strConcat xs ++ strConcat ys := by
  induction xs with
  | nil => simp [strConcat]
  | cons a t ih => simp [strConcat, ih, String.append_assoc]

theorem jsObjSet_of_not_mem {α : Type} (o : List (String × α)) (k : String)
    (v : α) (h : ∀ p ∈ o, p.1 ≠ k) : jsObjSet o k v = o ++ [(k, v)] := by
  have : o.any (fun p => p.1 == k) = false := by
    simp only [List.any_eq_false, beq_iff_eq]
    exact h
  simp [jsObjSet, this]

theorem updateJobStatus_of_missing (st : Store) (i s : String)
    (h : getJob st i = none) : updateJobStatus st i s = st := by
  induction st with
  | nil => rfl
  | cons p t ih =>
      simp only [getJob, List.lookup] at h ih
      by_cases hp : p.1 = i
      · rw [show (i == p.1) = true by simp [hp]] at h
        simp at h
      · rw [show (i == p.1) = false by simp [Ne.symm hp]] at h
        simp only [updateJobStatus, List.map_cons, if_neg hp]
        have := ih h
        simp only [updateJobStatus] at this
        rw [this]

theorem srLoop_releases (bs : List (List Row)) :
    ∀ (c : Bool) (k : Option Nat), (srLoop bs c k).releases = 1 := by
  induction bs with
  | nil =>
      intro c k
      match k with
      | some 0 => rfl
      | some (n + 1) => cases c <;> rfl
      | none => cases c <;> rfl
  | cons b t ih =>
      intro c k
      match k with
      | some 0 => rfl
      | some (n + 1) =>
          by_cases hb : b.isEmpty <;> simp [srLoop, hb, ih]
      | none =>
          by_cases hb : b.isEmpty <;> simp [srLoop, hb, ih]

theorem srLoop_err_not_closed (bs : List (List Row)) :
    ∀ (c : Bool) (k : Option Nat),
      (srLoop bs c k).errored = true → (srLoop bs c k).cursorClosed = false := by
  induction bs with
  | nil =>
      intro c k
      match k with
      | some 0 => intro h; rfl
      | some (n + 1) => cases c <;> simp [srLoop]
      | none => cases c <;> simp [srLoop]
  | cons b t ih =>
      intro c k
      match k with
      | some 0 => intro h; rfl
      | some (n + 1) =>
          by_cases hb : b.isEmpty
          · simp [srLoop, hb]
          · simp only [srLoop, hb]
            simp only [Bool.false_eq_true, if_false]
            exact ih c _
      | none =>
          by_cases hb : b.isEmpty
          · simp [srLoop, hb]
          · simp only [srLoop, hb]
            simp only [Bool.false_eq_true, if_false]
            exact ih c _

theorem srLoop_clean_closed (bs : List (List Row)) :
    (srLoop bs true none).cursorClosed = true := by
  induction bs with
  | nil => rfl
  | cons b t ih => by_cases hb : b.isEmpty <;> simp [srLoop, hb, ih]

theorem srLoop_err_path (bs : List (List Row)) (h : ∀ b ∈ bs, b ≠ []) :
    (srLoop bs false none).errored = true ∧
      (srLoop bs false none).cursorClosed = false := by
  induction bs with
  | nil => exact ⟨rfl, rfl⟩
  | cons b t ih =>
      have hb : b.isEmpty = false := by
        cases b with
        | nil => exact absurd rfl (h [] (List.mem_cons_self [] t))
        | cons x xs => rfl
      simp only [srLoop, hb, Bool.false_eq_true, if_false, Option.map_none]
      exact ih (fun b2 hb2 => h b2 (List.mem_cons_of_mem b hb2))

theorem srLoop_abandon_path (bs : List (List Row)) :
    ∀ n : Nat, n + 1 ≤ bs.length → (∀ b ∈ bs, b ≠ []) → ∀ c : Bool,
      (srLoop bs c (some (n + 1))).cursorClosed = false ∧
        (srLoop bs c (some (n + 1))).errored = false := by
  induction bs with
  | nil =>
      intro n hn
      simp at hn
  | cons b t ih =>
      intro n hn h c
      have hb : b.isEmpty = false := by
        cases b with
        | nil => exact absurd rfl (h [] (List.mem_cons_self [] t))
        | cons x xs => rfl
      simp only [srLoop, hb, Bool.false_eq_true, if_false, Option.map,
        Nat.add_sub_cancel]
      cases n with
      | zero =>
          cases t with
          | nil => exact ⟨rfl, rfl⟩
          | cons b2 t2 => exact ⟨rfl, rfl⟩
      | succ m =>
          have hm : m + 1 ≤ t.length := by
            simp only [List.length_cons] at hn
            omega
          exact ih m hm (fun b2 hb2 => h b2 (List.mem_cons_of_mem b hb2)) c

theorem disciplined_runWrites (cs : List String) :
    ∀ sch : List Bool, disciplined (runWrites cs sch) = true := by
  induction cs with
  | nil => intro sch; rfl
  | cons c t ih =>
      intro sch
      cases sch with
      | nil => simp [runWrites, disciplined, ih]
      | cons r rs => cases r <;> simp [runWrites, disciplined, ih]

theorem writtenBytes_runWrites (cs : List String) :
    ∀ sch : List Bool, writtenBytes (runWrites cs sch) = strConcat cs := by
  induction cs with
  | nil => intro sch; rfl
  | cons c t ih =>
      intro sch
      cases sch with
      | nil => simp [runWrites, writtenBytes, strConcat, ih]
      | cons r rs => cases r <;> simp [runWrites, writtenBytes, strConcat, ih]

/-- C10: for an export id absent from the store, `updateJobStatus`
changes nothing — it raises no error, creates no entry and modifies no
job, and `getJob` still returns nothing afterwards. -/
theorem c10_update_missing_id_noop (st : Store) (i s : String)
    (h : getJob st i = none) :
    updateJobStatus st i s = st ∧ getJob (updateJobStatus st i s) i = none := by
  have he := updateJobStatus_of_missing st i s h
  exact ⟨he, by rw [he]; exact h⟩

/-- C10 witness: the noop theorem applied to a store holding only the
json job, queried with an id that is not present. -/
theorem c10_witness :
    updateJobStatus storeJsonX "nope" "complete" = storeJsonX ∧
      getJob (updateJobStatus storeJsonX "nope" "complete") "nope" = none :=
  c10_update_missing_id_noop storeJsonX "nope" "complete" rfl

/-- C3 counterexample: the claim that every termination path of
`streamRows` both releases the connection and closes the cursor is
false — on the invocation whose first cursor read errors, and likewise
on the invocation whose consumer abandons after the first of two
batches, the cursor is never closed (the `await cursor.close()` sits
inside the try block, before the `finally`, and both the thrown error
and the consumer's early return skip it). -/
theorem c3_counterexample :
    ¬ claimC3 ∧ (runStreamRows srErrInput).cursorClosed = false ∧
      (runStreamRows srAbandonInput).cursorClosed = false := by
  refine ⟨?_, rfl, rfl⟩
  intro h
  have hc := (h srErrInput).2
  have he : (runStreamRows srErrInput).cursorClosed = false := rfl
  rw [he] at hc
  exact Bool.false_ne_true hc

/-- C3 amended: on every termination path `streamRows` releases the
pooled connection exactly once, and the cursor is closed only on the
normal-exhaustion path — when the consumer pulls to the end and the
terminal read is a clean empty fetch, the cursor is closed; when the
consumer pulls to the end and the terminal read fails, the error is
propagated to the consumer and the cursor close is skipped; when the
consumer abandons early, no error is raised and the cursor close is
likewise skipped. -/
theorem c3_release_once_close_only_on_exhaustion (i : SRInput) :
    (runStreamRows i).releases = 1 ∧
      ((runStreamRows i).errored = true →
        (runStreamRows i).cursorClosed = false) ∧
      (i.consume = none → i.cleanEnd = true →
        (runStreamRows i).cursorClosed = true) ∧
      (i.consume = none → i.cleanEnd = false → (∀ b ∈ i.batches, b ≠ []) →
        (runStreamRows i).errored = true ∧
          (runStreamRows i).cursorClosed = false) ∧
      (∀ n : Nat, i.consume = some n → n + 1 ≤ i.batches.length →
        (∀ b ∈ i.batches, b ≠ []) →
        (runStreamRows i).cursorClosed = false ∧
          (runStreamRows i).errored = false) := by
  refine ⟨srLoop_releases _ _ _, srLoop_err_not_closed _ _ _, ?_, ?_, ?_⟩
  · intro hc hcl
    have he : runStreamRows i = srLoop i.batches true none := by
      simp [runStreamRows, hc, hcl]
    rw [he]
    exact srLoop_clean_closed _
  · intro hc hcl hne
    have he : runStreamRows i = srLoop i.batches false none := by
      simp [runStreamRows, hc, hcl]
    rw [he]
    exact srLoop_err_path i.batches hne
  · intro n hc hlen hne
    have he : runStreamRows i = srLoop i.batches i.cleanEnd (some (n + 1)) := by
      simp [runStreamRows, hc]
    rw [he]
    exact srLoop_abandon_path i.batches n hlen hne i.cleanEnd

/-- C3 witness: the amended theorem applied to the clean fully-consumed
invocation, to the invocation whose first read errors, and to the
invocation whose consumer abandons after one of two batches, each
hypothesis discharged on the concrete input. -/
theorem c3_witness :
    (runStreamRows srCleanInput).releases = 1 ∧
      (runStreamRows srCleanInput).cursorClosed = true ∧
      (runStreamRows srErrInput).errored = true ∧
      (runStreamRows srErrInput).cursorClosed = false ∧
      (runStreamRows srAbandonInput).cursorClosed = false ∧
      (runStreamRows srAbandonInput).errored = false := by
  have hemp : ∀ b ∈ srErrInput.batches, b ≠ [] := by
    intro b hb
    cases hb
  have habn : ∀ b ∈ srAbandonInput.batches, b ≠ [] := by
    intro b hb
    rcases List.mem_cons.mp hb with h | h
    · rw [h]; exact List.cons_ne_nil _ _
    · rcases List.mem_cons.mp h with h2 | h2
      · rw [h2]; exact List.cons_ne_nil _ _
      · cases h2
  refine ⟨(c3_release_once_close_only_on_exhaustion srCleanInput).1,
    (c3_release_once_close_only_on_exhaustion srCleanInput).2.2.1 rfl rfl,
    ((c3_release_once_close_only_on_exhaustion srErrInput).2.2.2.1 rfl rfl hemp).1,
    ((c3_release_once_close_only_on_exhaustion srErrInput).2.2.2.1 rfl rfl hemp).2,
    ((c3_release_once_close_only_on_exhaustion srAbandonInput).2.2.2.2 0 rfl
      (by decide) habn).1,
    ((c3_release_once_close_only_on_exhaustion srAbandonInput).2.2.2.2 0 rfl
      (by decide) habn).2⟩

/-- C4: whatever step of the parquet encode fails (or none), the
staging file no longer exists once the call returns — the finally block
unlinks it on every exit path; on the failure-free run no error is
recorded and the artifact bytes reach the response, and on a
finalization failure the try block really had left the staging file
behind, so the unlink is what removes it. -/
theorem c4_staging_always_deleted (e : PqErr) (rows : List Row) :
    (writeParquetRun e rows).tmpExists = false ∧
      (e = PqErr.ok → (writeParquetRun e rows).errorOccurred = false ∧
        (writeParquetRun e rows).bytesSent = true) ∧
      (e = PqErr.closeE → (writeParquetTry e rows.length).tmpAtExit = true) := by
  refine ⟨rfl, ?_, ?_⟩
  · rintro rfl; exact ⟨rfl, rfl⟩
  · rintro rfl; rfl

/-- C4 witness: the deletion theorem applied to the failure-free run
and to a finalization failure, discharging each hypothesis. -/
theorem c4_witness :
    (writeParquetRun PqErr.ok [rowX]).tmpExists = false ∧
      (writeParquetRun PqErr.ok [rowX]).errorOccurred = false ∧
      (writeParquetRun PqErr.closeE [rowX]).tmpExists = false ∧
      (writeParquetTry PqErr.closeE [rowX].length).tmpAtExit = true :=
  ⟨(c4_staging_always_deleted PqErr.ok [rowX]).1,
    ((c4_staging_always_deleted PqErr.ok [rowX]).2.1 rfl).1,
    (c4_staging_always_deleted PqErr.closeE [rowX]).1,
    (c4_staging_always_deleted PqErr.closeE [rowX]).2.2 rfl⟩

/-- C6: for every readiness schedule of the sink, the text writers'
write traces never carry a second write while one is unacknowledged
(each pending write is followed by the awaited drain before any further
write), and the bytes delivered are byte-for-byte those of the
unthrottled all-ready run, for the json and xml writers alike. -/
theorem c6_backpressure_discipline (cols : List Column) (bs : List (List Row))
    (sch : List Bool) :
    disciplined (runWrites (jsonChunksOf cols bs) sch) = true ∧
      writtenBytes (runWrites (jsonChunksOf cols bs) sch) =
        writtenBytes (runWrites (jsonChunksOf cols bs)
          (List.replicate (jsonChunksOf cols bs).length true)) ∧
      disciplined (runWrites (xmlChunksOf cols bs) sch) = true ∧
      writtenBytes (runWrites (xmlChunksOf cols bs) sch) =
        writtenBytes (runWrites (xmlChunksOf cols bs)
          (List.replicate (xmlChunksOf cols bs).length true)) := by
  refine ⟨disciplined_runWrites _ _, ?_, disciplined_runWrites _ _, ?_⟩ <;>
    simp [writtenBytes_runWrites]

/-- C1 (code bug evidence): on a parquet job whose staging-file
creation fails — an error raised before any byte has reached the real
sink — the writer swallows the error (it never raises to the route), so
the route's structured-error branch cannot run: no structured payload
is emitted, the job is even marked complete, and the staging resource
is still cleaned up.  The claim (and the route's own catch block)
required a structured synchronous error payload here. -/
theorem c1_prefirstbyte_error_no_payload :
    (writeParquetRun PqErr.openE [rowX]).errorOccurred = true ∧
      (writeParquetRun PqErr.openE [rowX]).bytesSent = false ∧
      (writeParquetRun PqErr.openE [rowX]).raised = false ∧
      (downloadFinish storePqX "p1" (pqObs (writeParquetRun PqErr.openE [rowX]))).2
        = none ∧
      (getJob (downloadFinish storePqX "p1"
          (pqObs (writeParquetRun PqErr.openE [rowX]))).1 "p1").map Job.status
        = some "complete" ∧
      (writeParquetRun PqErr.openE [rowX]).tmpExists = false :=
  ⟨rfl, rfl, rfl, rfl, rfl, rfl⟩

theorem buildSchema_foldl (cols : List Column) :
    ∀ acc : List (String × PqType),
      (∀ c ∈ cols, ∀ p ∈ acc, p.1 ≠ c.target) →
      (cols.map Column.target).Nodup →
      cols.foldl (fun o c => jsObjSet o c.target (getParquetFieldType c.source)) acc
        = acc ++ cols.map (fun c => (c.target, getParquetFieldType c.source)) := by
  induction cols with
  | nil => intro acc _ _; simp
  | cons c t ih =>
      intro acc hdisj hnd
      simp only [List.foldl_cons]
      rw [jsObjSet_of_not_mem acc c.target _ (fun p hp => hdisj c (by simp) p hp)]
      simp only [List.map_cons, List.nodup_cons] at hnd
      rw [ih (acc ++ [(c.target, getParquetFieldType c.source)]) ?_ hnd.2]
      · simp
      · intro c2 hc2 p hp
        rcases List.mem_append.mp hp with h | h
        · exact hdisj c2 (by simp [hc2]) p h
        · simp only [List.mem_singleton] at h
          subst h
          intro hEq
          apply hnd.1
          rw [show c.target = c2.target from hEq]
          exact List.mem_map_of_mem Column.target hc2

theorem lookup_map_target (cols : List Column) (c : Column)
    (hmem : c ∈ cols) (hnd : (cols.map Column.target).Nodup) :
    (cols.map (fun x => (x.target, getParquetFieldType x.source))).lookup c.target
      = some (getParquetFieldType c.source) := by
  induction cols with
  | nil => cases hmem
  | cons a t ih =>
      simp only [List.map_cons, List.nodup_cons] at hnd
      rcases List.mem_cons.mp hmem with h | h
      · subst h
        simp [List.lookup]
      · have hne : a.target ≠ c.target := by
          intro hEq
          exact hnd.1 (hEq ▸ List.mem_map_of_mem Column.target h)
        simp only [List.map_cons, List.lookup]
        rw [show (c.target == a.target) = false by simp [Ne.symm hne]]
        exact ih h hnd.2

/-- C9: the columnar schema assigns each output column a physical type
determined solely by its declared source field — the id field maps to a
64-bit integer, the value field to a 64-bit float, the timestamp field
to a millisecond-precision timestamp, the nested metadata field to the
UTF8 (JSON string) text type, and every other field defaults to UTF8
text; for a mapping with distinct targets, looking any column's target
up in the built schema yields exactly the type of its source field. -/
theorem c9_schema_fixed_types :
    getParquetFieldType "id" = PqType.int64 ∧
      getParquetFieldType "value" = PqType.double ∧
      getParquetFieldType "created_at" = PqType.timestampMillis ∧
      getParquetFieldType "metadata" = PqType.utf8 ∧
      (∀ s : String, s ≠ "id" → s ≠ "value" → s ≠ "created_at" →
        getParquetFieldType s = PqType.utf8) ∧
      (∀ cols : List Column, (cols.map Column.target).Nodup →
        ∀ c ∈ cols, (buildSchema cols).lookup c.target
          = some (getParquetFieldType c.source)) := by
  refine ⟨rfl, rfl, rfl, rfl, ?_, ?_⟩
  · intro s h1 h2 h3
    simp only [getParquetFieldType, if_neg h1, if_neg h2, if_neg h3]
    by_cases h4 : s = "metadata" <;> simp [h4]
  · intro cols hnd c hmem
    have hb := buildSchema_foldl cols [] (by simp) hnd
    simp only [buildSchema]
    rw [hb]
    simp only [List.nil_append]
    exact lookup_map_target cols c hmem hnd

/-- C9 witness: the schema theorem applied to the full benchmark
column mapping and to the unknown field name, with every hypothesis
discharged on the concrete input. -/
theorem c9_witness :
    (buildSchema colsAll).lookup "metadata" = some PqType.utf8 ∧
      getParquetFieldType "name" = PqType.utf8 := by
  have h := c9_schema_fixed_types
  constructor
  · have hm := h.2.2.2.2.2 colsAll (by decide)
      { source := "metadata", target := "metadata" } (by decide)
    rw [show getParquetFieldType "metadata" = PqType.utf8 from h.2.2.2.1] at hm
    exact hm
  · exact h.2.2.2.2.1 "name" (by decide) (by decide) (by decide)

theorem jsonRowsChunks_append (cols : List Column) (xs ys : List Row) :
    ∀ f : Bool, jsonRowsChunks cols f (xs ++ ys)
      = jsonRowsChunks cols f xs ++ jsonRowsChunks cols (f && xs.isEmpty) ys := by
  induction xs with
  | nil => intro f; simp [jsonRowsChunks]
  | cons r t ih =>
      intro f
      simp [jsonRowsChunks, ih false]

theorem jsonBatchesChunks_flatten (cols : List Column) (bs : List (List Row)) :
    ∀ f : Bool, jsonBatchesChunks cols f bs = jsonRowsChunks cols f bs.flatten := by
  induction bs with
  | nil => intro f; rfl
  | cons b t ih =>
      intro f
      simp only [jsonBatchesChunks, List.flatten_cons, jsonRowsChunks_append, ih]

theorem xmlChunks_flatten (cols : List Column) (bs : List (List Row)) :
    strConcat (bs.map (xmlBatchChunk cols))
      = strConcat (bs.flatten.map (xmlRowStr cols)) := by
  induction bs with
  | nil => rfl
  | cons b t ih =>
      simp only [List.map_cons, List.flatten_cons, List.map_append, strConcat_append,
        strConcat, xmlBatchChunk, ih]

theorem csvRecordSeq_flatten (cols : List Column) (bs : List (List Row)) :
    csvRecordSeq cols bs = bs.flatten.map (csvRecord cols) := by
  induction bs with
  | nil => rfl
  | cons b t ih => simp [csvRecordSeq, ih]

/-- C5: each text encoder's output is a function of the flattened row
sequence alone, with the rows appearing in exactly the order and
multiplicity the source yields them — so any two partitions of the same
rows into batches produce identical output bytes (and, for csv, an
identical record stream into the external stringifier). -/
theorem c5_batch_size_independence (cols : List Column) (bs b2 : List (List Row)) :
    jsonOut cols bs = "[" ++ strConcat (jsonRowsChunks cols true bs.flatten) ++ "\n]" ∧
      xmlOut cols bs = xmlHeader ++
        (strConcat (bs.flatten.map (xmlRowStr cols)) ++ ("</records>" ++ "")) ∧
      csvRecordSeq cols bs = bs.flatten.map (csvRecord cols) ∧
      (bs.flatten = b2.flatten →
        jsonOut cols bs = jsonOut cols b2 ∧ xmlOut cols bs = xmlOut cols b2 ∧
          csvRecordSeq cols bs = csvRecordSeq cols b2) := by
  have hj : ∀ c : List (List Row), jsonOut cols c
      = "[" ++ strConcat (jsonRowsChunks cols true c.flatten) ++ "\n]" := by
    intro c
    simp [jsonOut, jsonBatchesChunks_flatten]
  have hx : ∀ c : List (List Row), xmlOut cols c
      = xmlHeader ++ (strConcat (c.flatten.map (xmlRowStr cols)) ++ ("</records>" ++ "")) := by
    intro c
    have h1 : xmlOut cols c
        = xmlHeader ++ strConcat (c.map (xmlBatchChunk cols) ++ ["</records>"]) := rfl
    rw [h1, strConcat_append, xmlChunks_flatten]
    rfl
  refine ⟨hj bs, hx bs, csvRecordSeq_flatten cols bs, ?_⟩
  intro hflat
  refine ⟨?_, ?_, ?_⟩
  · rw [hj bs, hj b2, hflat]
  · rw [hx bs, hx b2, hflat]
  · rw [csvRecordSeq_flatten, csvRecordSeq_flatten, hflat]

/-- C5 witness: the independence theorem applied to two partitions of
the same two rows — batches of size one versus a single batch of size
two — with the flattening hypothesis discharged by computation. -/
theorem c5_witness :
    jsonOut colsX [[rowX], [rowY]] = jsonOut colsX [[rowX, rowY]] ∧
      xmlOut colsX [[rowX], [rowY]] = xmlOut colsX [[rowX, rowY]] ∧
      csvRecordSeq colsX [[rowX], [rowY]] = csvRecordSeq colsX [[rowX, rowY]] :=
  (c5_batch_size_independence colsX [[rowX], [rowY]] [[rowX, rowY]]).2.2.2 rfl

theorem replChar_append (a : Char) (r : List Char) (xs ys : List Char) :
    replChar a r (xs ++ ys) = replChar a r xs ++ replChar a r ys := by
  induction xs with
  | nil => rfl
  | cons c t ih => simp [replChar, ih]

theorem xmlEscapeL_cons (c : Char) (cs : List Char) :
    xmlEscapeL (c :: cs) = xmlEscChar c ++ xmlEscapeL cs := by
  have h : xmlEscapeL (c :: cs) =
      replChar apos aposEnt (replChar '"' quotEnt (replChar '>' gtEnt
        (replChar '<' ltEnt (if c = '&' then ampEnt else [c])))) ++ xmlEscapeL cs := by
    simp only [xmlEscapeL, replChar, replChar_append]
  rw [h]
  congr 1
  by_cases h1 : c = '&'
  · subst h1; decide
  by_cases h2 : c = '<'
  · subst h2; decide
  by_cases h3 : c = '>'
  · subst h3; decide
  by_cases h4 : c = '"'
  · subst h4; decide
  by_cases h5 : c = apos
  · subst h5; decide
  simp [replChar, xmlEscChar, h1, h2, h3, h4, h5]

theorem xmlEscapeL_flat (cs : List Char) :
    xmlEscapeL cs = (cs.map xmlEscChar).flatten := by
  induction cs with
  | nil => rfl
  | cons c t ih => rw [xmlEscapeL_cons, ih]; rfl

theorem xmlItems_eq_concat (l : List JsVal) :
    xmlItems l = strConcat (l.map (valueToXml "item")) := by
  induction l with
  | nil => rfl
  | cons v t ih => simp [xmlItems, strConcat, ih]

/-- C8: the markup encoder's element-name sanitization maps every
character outside the allowed class to an underscore and prepends an
underscore exactly when the first (already sanitized) character is a
digit — so a-b stays itself and 1x gains a leading underscore; an array
value renders as sibling generic item elements in source order; and
scalar text content is escaped character-wise, sending each of the five
XML metacharacters to its entity. -/
theorem c8_sanitize_items_escape :
    (∀ s : String, (sanitizeTag s).data =
      (match s.data.map (fun c => if tagOk c then c else '_') with
       | [] => ([] : List Char)
       | c :: t => if c.isDigit then '_' :: c :: t else c :: t)) ∧
      sanitizeTag "a-b" = "a-b" ∧
      sanitizeTag "1x" = "_1x" ∧
      (∀ (t : String) (l : List JsVal),
        valueToXml t (JsVal.arr l) = "<" ++ sanitizeTag t ++ ">" ++
          strConcat (l.map (valueToXml "item")) ++ "</" ++ sanitizeTag t ++ ">") ∧
      (∀ t s : String,
        valueToXml t (JsVal.str s) = "<" ++ sanitizeTag t ++ ">" ++
          xmlEscape s ++ "</" ++ sanitizeTag t ++ ">") ∧
      (∀ s : String, (xmlEscape s).data = (s.data.map xmlEscChar).flatten) ∧
      xmlEscChar '&' = ampEnt ∧ xmlEscChar '<' = ltEnt ∧
      xmlEscChar '>' = gtEnt ∧ xmlEscChar '"' = quotEnt ∧
      xmlEscChar apos = aposEnt ∧
      valueToXml "k" (JsVal.arr [JsVal.str "x", JsVal.str "y"])
        = "<k><item>x</item><item>y</item></k>" := by
  have harr : ∀ (t : String) (l : List JsVal),
      valueToXml t (JsVal.arr l) = "<" ++ sanitizeTag t ++ ">" ++
        strConcat (l.map (valueToXml "item")) ++ "</" ++ sanitizeTag t ++ ">" := by
    intro t l
    rw [valueToXml, xmlItems_eq_concat]
  have hstr : ∀ t s : String,
      valueToXml t (JsVal.str s) = "<" ++ sanitizeTag t ++ ">" ++
        xmlEscape s ++ "</" ++ sanitizeTag t ++ ">" := by
    intro t s
    simp [valueToXml, scalarStr]
  refine ⟨?_, by decide, by decide, harr, hstr, ?_, by decide, by decide, by decide,
    by decide, by decide, ?_⟩
  · intro s
    simp only [sanitizeTag]
    cases hm : s.data.map (fun c => if tagOk c then c else '_') with
    | nil => simp [hm]
    | cons c t =>
        simp only [hm]
        by_cases hd : c.isDigit <;> simp [hd, String.data_append, hm]
  · intro s
    simp [xmlEscape, xmlEscapeL_flat]
  · rw [harr]
    simp only [List.map_cons, List.map_nil, strConcat]
    rw [hstr "item" "x", hstr "item" "y"]
    decide

theorem ws_nil : Ws [] := by
  intro c hc
  cases hc

theorem ws_nl : Ws ['\n'] := by
  intro c hc
  have h := List.mem_singleton.mp hc
  subst h
  rfl

theorem hexDig_spec : ∀ d : Nat, d < 16 →
    hexVal (hexDig d) = d ∧ isHexDig (hexDig d) = true := by decide

theorem decodeU_ctrl (c : Char) (h : c.toNat < 32) :
    decodeU '0' '0' (hexDig (c.toNat / 16)) (hexDig (c.toNat % 16)) = c := by
  have h1 := hexDig_spec (c.toNat / 16) (by omega)
  have h2 := hexDig_spec (c.toNat % 16) (by omega)
  unfold decodeU
  rw [h1.1, h2.1, show hexVal '0' = 0 from rfl]
  rw [show 0 * 4096 + 0 * 256 + c.toNat / 16 * 16 + c.toNat % 16 = c.toNat by omega]
  exact Char.ofNat_toNat c

theorem escBody_sound : ∀ cs : List Char, StrBody (escBody cs) cs := by
  intro cs
  induction cs with
  | nil => exact StrBody.nil
  | cons c t ih =>
      show StrBody (escChar c ++ escBody t) (c :: t)
      unfold escChar
      by_cases h1 : c = '"'
      · subst h1; rw [if_pos rfl]; exact StrBody.eq _ _ ih
      rw [if_neg h1]
      by_cases h2 : c = '\\'
      · subst h2; rw [if_pos rfl]; exact StrBody.ebs _ _ ih
      rw [if_neg h2]
      by_cases h3 : c = '\n'
      · subst h3; rw [if_pos rfl]; exact StrBody.en _ _ ih
      rw [if_neg h3]
      by_cases h4 : c = '\t'
      · subst h4; rw [if_pos rfl]; exact StrBody.et _ _ ih
      rw [if_neg h4]
      by_cases h5 : c = '\r'
      · subst h5; rw [if_pos rfl]; exact StrBody.er _ _ ih
      rw [if_neg h5]
      by_cases h6 : c = '\x08'
      · subst h6; rw [if_pos rfl]; exact StrBody.eb _ _ ih
      rw [if_neg h6]
      by_cases h7 : c = '\x0c'
      · subst h7; rw [if_pos rfl]; exact StrBody.ef _ _ ih
      rw [if_neg h7]
      by_cases h8 : c.toNat < 32
      · rw [if_pos h8]
        have h := StrBody.eu '0' '0' (hexDig (c.toNat / 16)) (hexDig (c.toNat % 16))
          (escBody t) t (by decide) (by decide)
          (hexDig_spec (c.toNat / 16) (by omega)).2
          (hexDig_spec (c.toNat % 16) (by omega)).2 ih
        rwa [decodeU_ctrl c h8] at h
      · rw [if_neg h8]
        exact StrBody.chr c _ _ h1 h2 (by omega) ih

mutual

theorem serVal_sound : (v : JsVal) → JVal (serVal v) v
  | JsVal.null => by simp only [serVal]; exact JVal.vnull
  | JsVal.bool true => by simp only [serVal]; exact JVal.vtrue
  | JsVal.bool false => by simp only [serVal]; exact JVal.vfalse
  | JsVal.num n => by simp only [serVal]; exact JVal.vnum n
  | JsVal.str s => by
      simp only [serVal]
      exact JVal.vstr _ _ (escBody_sound s.data)
  | JsVal.arr [] => by
      simp only [serVal, serElems]
      exact JVal.varrNil [] ws_nil
  | JsVal.arr (v :: l) => by
      have h := JVal.varr (serElems (v :: l)) (v :: l) (serElems_sound v l)
      simpa only [serVal] using h
  | JsVal.obj [] => by
      simp only [serVal, serMembs]
      exact JVal.vobjNil [] ws_nil
  | JsVal.obj ((k, v) :: m) => by
      have h := JVal.vobj (serMembs ((k, v) :: m)) ((k, v) :: m) (serMembs_sound k v m)
      simpa only [serVal] using h
termination_by v => sizeOf v

theorem serElems_sound : (v : JsVal) → (l : List JsVal) → JElems (serElems (v :: l)) (v :: l)
  | v, [] => by
      have h := JElems.onee [] [] (serVal v) v ws_nil ws_nil (serVal_sound v)
      simpa only [serElems, List.nil_append, List.append_nil] using h
  | v, w :: l => by
      have h := JElems.conse [] [] (serVal v) (serElems (w :: l)) v (w :: l)
        ws_nil ws_nil (serVal_sound v) (serElems_sound w l)
      simpa only [serElems, List.nil_append, List.append_nil] using h
termination_by v l => 1 + sizeOf v + sizeOf l

theorem serMembs_sound : (k : String) → (v : JsVal) → (m : List (String × JsVal)) →
    JMembs (serMembs ((k, v) :: m)) ((k, v) :: m)
  | k, v, [] => by
      have h := JMembs.onem [] [] [] [] (escBody k.data) k.data (serVal v) v
        ws_nil ws_nil ws_nil ws_nil (escBody_sound k.data) (serVal_sound v)
      simpa only [serMembs, List.nil_append, List.append_nil, List.cons_append,
        List.append_assoc] using h
  | k, v, (k2, v2) :: m => by
      have h := JMembs.consm [] [] [] [] (escBody k.data) k.data (serVal v)
        (serMembs ((k2, v2) :: m)) v ((k2, v2) :: m)
        ws_nil ws_nil ws_nil ws_nil (escBody_sound k.data) (serVal_sound v)
        (serMembs_sound k2 v2 m)
      simpa only [serMembs, List.nil_append, List.append_nil, List.cons_append,
        List.append_assoc] using h
termination_by _ v m => 1 + sizeOf v + sizeOf m

end

theorem jelems_layout : (v : JsVal) → (l : List JsVal) →
    JElems ('\n' :: serVal v ++ sepTail l ++ ['\n']) (v :: l)
  | v, [] => by
      have h := JElems.onee ['\n'] ['\n'] (serVal v) v ws_nl ws_nl (serVal_sound v)
      simpa only [sepTail, List.cons_append, List.nil_append, List.append_nil,
        List.append_assoc] using h
  | v, w :: l => by
      have h := JElems.conse ['\n'] [] (serVal v)
        ('\n' :: serVal w ++ sepTail l ++ ['\n']) v (w :: l)
        ws_nl ws_nil (serVal_sound v) (jelems_layout w l)
      simpa only [sepTail, List.cons_append, List.nil_append, List.append_nil,
        List.append_assoc] using h

theorem jsonRowsChunks_false_map (cols : List Column) (rs : List Row) :
    jsonRowsChunks cols false rs
      = rs.map (fun x => ",\n" ++ stringifyJs (JsVal.obj (rekeyRow cols x))) := by
  induction rs with
  | nil => rfl
  | cons r t ih => simp [jsonRowsChunks, jsonRowChunk, ih]

theorem strConcat_tail_data (cols : List Column) (rs : List Row) :
    (strConcat (jsonRowsChunks cols false rs)).data
      = sepTail (rs.map (fun r => JsVal.obj (rekeyRow cols r))) := by
  induction rs with
  | nil => rfl
  | cons r t ih =>
      show ((",\n" ++ stringifyJs (JsVal.obj (rekeyRow cols r))) ++
        strConcat (jsonRowsChunks cols false t)).data = _
      rw [String.data_append, String.data_append, ih]
      rfl

/-- C7: the array-of-objects encoder writes an opening bracket, each
record re-keyed by output name and serialized as one JSON object, with
a comma separator before every record except the first, then a closing
bracket; the whole output is syntactically valid JSON denoting exactly
the array of the re-keyed records, and for zero records it is the text
of the empty array. -/
theorem c7_json_array_wellformed (cols : List Column) (bs : List (List Row)) :
    jsonOut cols bs
      = "[" ++ strConcat (jsonRowsChunks cols true bs.flatten) ++ "\n]" ∧
      (∀ (r : Row) (rs : List Row),
        jsonRowsChunks cols true (r :: rs)
          = ("\n" ++ stringifyJs (JsVal.obj (rekeyRow cols r))) ::
              rs.map (fun x => ",\n" ++ stringifyJs (JsVal.obj (rekeyRow cols x)))) ∧
      JVal (jsonOut cols bs).data
        (JsVal.arr (bs.flatten.map (fun r => JsVal.obj (rekeyRow cols r)))) ∧
      jsonOut cols [] = "[\n]" := by
  have hout : jsonOut cols bs
      = "[" ++ strConcat (jsonRowsChunks cols true bs.flatten) ++ "\n]" := by
    simp [jsonOut, jsonBatchesChunks_flatten]
  refine ⟨hout, ?_, ?_, rfl⟩
  · intro r rs
    simp [jsonRowsChunks, jsonRowChunk, jsonRowsChunks_false_map]
  · rw [hout]
    cases hrows : bs.flatten with
    | nil =>
        show JVal ("[" ++ strConcat (jsonRowsChunks cols true []) ++ "\n]").data _
        have h := JVal.varrNil ['\n'] ws_nl
        simpa using h
    | cons r rs =>
        have hbody : (strConcat (jsonRowsChunks cols true (r :: rs))).data
            = '\n' :: serVal (JsVal.obj (rekeyRow cols r)) ++
                sepTail (rs.map (fun x => JsVal.obj (rekeyRow cols x))) := by
          show (("\n" ++ stringifyJs (JsVal.obj (rekeyRow cols r))) ++
            strConcat (jsonRowsChunks cols false rs)).data = _
          rw [String.data_append, String.data_append, strConcat_tail_data]
          rfl
        have hdata : ("[" ++ strConcat (jsonRowsChunks cols true (r :: rs)) ++ "\n]").data
            = '[' :: ('\n' :: serVal (JsVal.obj (rekeyRow cols r)) ++
                sepTail (rs.map (fun x => JsVal.obj (rekeyRow cols x))) ++ ['\n']) ++ [']'] := by
          rw [String.data_append, String.data_append, hbody]
          simp
        rw [hdata]
        exact JVal.varr _ _
          (jelems_layout (JsVal.obj (rekeyRow cols r))
            (rs.map (fun x => JsVal.obj (rekeyRow cols x))))

/-- C2 (code bug evidence): on a json job whose terminal cursor read
fails, an error occurred during encoding, yet the writer's catch block
swallows it and returns normally, so the route records the success
status: the job ends marked complete, not error, contradicting the
claimed status invariant (and the route's own dead error branch). -/
theorem c2_error_run_marked_complete :
    (writeJsonRun colsX [[rowX]] true).1.errorOccurred = true ∧
      (writeJsonRun colsX [[rowX]] true).1.raised = false ∧
      (getJob (downloadFinish storeJsonX "j1"
          (writeJsonRun colsX [[rowX]] true).1).1 "j1").map Job.status
        = some "complete" ∧
      (downloadFinish storeJsonX "j1" (writeJsonRun colsX [[rowX]] true).1).2
        = none :=
  ⟨rfl, rfl, rfl, rfl⟩

end PolyStream
